import Mathlib

/-!
Verification of the gif-slacker parameter-search and render-memoization
engine against its specification.

The development shallowly embeds the two core modules:

* `gif_slacker/value_generator.py` — the elimination search: the `values`
  generator that yields candidate `(fps, size, lossy)` triples, receives a
  boolean verdict for each (`generator.send(ok)`), and either returns a final
  candidate or raises `UnsatisfiableConstraints`.
* `gif_slacker/optimizer.py` — the `Optimizer` class: the memoizing render
  pipeline (`_to_gif_ffmpeg`, `_to_gif`), bound validation in `optimize`, the
  `delta` scoring helper, artifact promotion, and the `__exit__` cleanup.

Conventions of the embedding:

* Python integers are `Int`; Python floats that only carry exact arithmetic
  are `ℚ`; float expressions involving fractional powers are modelled over
  `ℝ` (their rounding behavior is outside the scope of the claims, which are
  about the formulas computed).
* The interactive generator is embedded as a total function from an oracle
  `o : Nat → Bool` (the answer sent to the i-th yield) to the full run: the
  transcript of (yielded candidate, answer) pairs plus the final outcome.
  The `while` loop is embedded with an explicit fuel argument, always called
  with fuel equal to the list length, which dominates the iteration count.
* The float-valued ranking formula of `value_generator.py` (lines 37-55) is
  abstracted as a `score` parameter into an arbitrary linearly ordered type:
  the search's control flow depends only on the ranking it induces, and the
  claims quantify over runs of the search against the ranked list.
* Filesystem state of the `Optimizer` working directory is a map from
  deterministic file names to abstract file contents (a `Nat` standing for
  the bytes of the file; its byte size is identified with that value).
  External tool invocations are recorded in a call log, and their outputs are
  supplied by a behavior function `ext : Nat → Option Nat` giving the result
  of the n-th invocation (`none` = the subprocess failed, which with
  `check=True` raises `CalledProcessError`).
-/

/-- `MinMax = namedtuple("MinMax", ["min", "max"])` from value_generator.py. -/
structure MinMax where
  min : Int
  max : Int
deriving DecidableEq

/-- The candidate triple of `Vals = namedtuple("Vals", ["fps", "size", "lossy",
"distance"])`.  The `distance` component is carried separately (it is used
only as the sort key, see `sortedGrid`). -/
structure Vals where
  fps : Int
  size : Int
  lossy : Int
deriving DecidableEq

/-- Outcome of a full run of the `values` generator: a returned final
candidate (`StopIteration` value) or the `UnsatisfiableConstraints` error. -/
inductive Outcome where
  | result (v : Vals)
  | unsat
deriving DecidableEq

/-- A complete run of the generator against an oracle: the transcript of
(yielded candidate, answer) pairs in order, and the final outcome. -/
structure RunResult where
  transcript : List (Vals × Bool)
  outcome : Outcome
deriving DecidableEq

/-- `range(a, b + 1)` over integers: the list `[a, a+1, ..., b]`
(empty when `b < a`). -/
def intRange (a b : Int) : List Int :=
  (List.range (b + 1 - a).toNat).map (fun i : Nat => a + (i : Int))

/-- The full candidate grid of `values` (value_generator.py lines 34-36):
three nested loops, `fps` outermost, `lossy` innermost. -/
def mkGrid (fps size lossy : MinMax) : List Vals :=
  (intRange fps.min fps.max).flatMap fun f =>
    (intRange size.min size.max).flatMap fun s =>
      (intRange lossy.min lossy.max).map fun l => ⟨f, s, l⟩

/-- The grid sorted descending by score (`vals.sort(key=..., reverse=True)`,
value_generator.py line 59).  `score` abstracts the float-valued `distance`
formula of lines 37-55.  Python's sort is stable; on candidates with equal
scores the order produced here may differ from Python's, which no claim
depends on (every property below is either tie-agnostic or quantifies over
the score function). -/
def sortedGrid {D : Type} [LinearOrder D] (score : Vals → D)
    (fps size lossy : MinMax) : List Vals :=
  List.insertionSort (fun a b => score b ≤ score a) (mkGrid fps size lossy)

/-- The bisection loop of `values` (value_generator.py lines 61-69):

    while len(vals) > 1:
        median = floor(len(vals) / 2)
        m = vals[median]
        ok = yield m
        if ok:
            vals = vals[:median]
            found_params.append(m)
        else:
            vals = vals[median:]

`o k` is the answer sent to the yield at call index `k`.  Returns the
transcript of this loop's (candidate, answer) pairs and the final
`found_params` list.  `fuel` bounds the iteration count; every call site
passes the slice length, which strictly dominates it. -/
def bisect (o : Nat → Bool) (fuel : Nat) (k : Nat) (vals found : List Vals) :
    List (Vals × Bool) × List Vals :=
  match fuel with
  | 0 => ([], found)
  | fuel' + 1 =>
    if h : 1 < vals.length then
      let median := vals.length / 2
      let m := vals.get ⟨median, by omega⟩
      if o k then
        let rest := bisect o fuel' (k + 1) (vals.take median) (found ++ [m])
        ((m, true) :: rest.1, rest.2)
      else
        let rest := bisect o fuel' (k + 1) (vals.drop median) found
        ((m, false) :: rest.1, rest.2)
    else ([], found)

/-- A full run of the `values` generator (value_generator.py lines 14-71)
against the oracle `o`:

* yield the maximum options `Vals(fps.max, size.max, lossy.min)`; if the
  answer is true, return it;
* yield the minimum options `Vals(fps.min, size.min, lossy.max)`, having
  already appended it to `found_params`; if the answer is false, raise
  `UnsatisfiableConstraints`;
* otherwise run the bisection loop over the descending-sorted grid and
  return `found_params[-1]`. -/
def valuesRun {D : Type} [LinearOrder D] (score : Vals → D)
    (fps size lossy : MinMax) (o : Nat → Bool) : RunResult :=
  let m0 : Vals := ⟨fps.max, size.max, lossy.min⟩
  if o 0 then ⟨[(m0, true)], Outcome.result m0⟩
  else
    let m1 : Vals := ⟨fps.min, size.min, lossy.max⟩
    if o 1 then
      let g := sortedGrid score fps size lossy
      let res := bisect o g.length 2 g [m1]
      ⟨(m0, false) :: (m1, true) :: res.1, Outcome.result (res.2.getLastD m1)⟩
    else ⟨[(m0, false), (m1, false)], Outcome.unsat⟩

/-- Modelled from the spec: the explicit `{workingSlice, bestSoFar}` state
machine the specification describes for the elimination search, with the
failure rule as the code actually implements it: on a false answer the slice
is narrowed to the portion from the probed candidate (inclusive) down.
Returns the final best-so-far, `none` when no candidate was ever confirmed. -/
def searchLoop (o : Nat → Bool) (fuel : Nat) (k : Nat) (slice : List Vals)
    (best : Option Vals) : Option Vals :=
  match fuel with
  | 0 => best
  | fuel' + 1 =>
    if h : 1 < slice.length then
      let m := slice.get ⟨slice.length / 2, by omega⟩
      if o k then searchLoop o fuel' (k + 1) (slice.take (slice.length / 2)) (some m)
      else searchLoop o fuel' (k + 1) (slice.drop (slice.length / 2)) best
    else best

/-- Modelled from the spec: the whole-run state machine with the corner
probes, using `searchLoop` for the bisection phase. -/
def searchRun {D : Type} [LinearOrder D] (score : Vals → D)
    (fps size lossy : MinMax) (o : Nat → Bool) : Option Vals :=
  let m0 : Vals := ⟨fps.max, size.max, lossy.min⟩
  if o 0 then some m0
  else
    let m1 : Vals := ⟨fps.min, size.min, lossy.max⟩
    if o 1 then
      let g := sortedGrid score fps size lossy
      searchLoop o g.length 2 g (some m1)
    else none

/-- Modelled from the spec: the bisection loop exactly as claim C1 states it,
where on a false answer "the probed candidate and every candidate scored at
or above it are discarded, keeping only the lower-scored half" — i.e. the
slice is narrowed to the part strictly after the probed median. -/
def claimLoop (o : Nat → Bool) (fuel : Nat) (k : Nat) (slice : List Vals)
    (best : Option Vals) : Option Vals :=
  match fuel with
  | 0 => best
  | fuel' + 1 =>
    if h : 1 < slice.length then
      let m := slice.get ⟨slice.length / 2, by omega⟩
      if o k then claimLoop o fuel' (k + 1) (slice.take (slice.length / 2)) (some m)
      else claimLoop o fuel' (k + 1) (slice.drop (slice.length / 2 + 1)) best
    else best

/-- Modelled from the spec: the whole-run machine under claim C1's reading of
the failure rule. -/
def claimRun {D : Type} [LinearOrder D] (score : Vals → D)
    (fps size lossy : MinMax) (o : Nat → Bool) : Option Vals :=
  let m0 : Vals := ⟨fps.max, size.max, lossy.min⟩
  if o 0 then some m0
  else
    let m1 : Vals := ⟨fps.min, size.min, lossy.max⟩
    if o 1 then
      let g := sortedGrid score fps size lossy
      claimLoop o g.length 2 g (some m1)
    else none

/-- The candidate probed by a bisection step on a slice of length `> 1`:
the one at the median index `⌊len/2⌋`. -/
def medianOf (l : List Vals) (h : 1 < l.length) : Vals :=
  l.get ⟨l.length / 2, by omega⟩

/-- Deterministic names in the Optimizer's working directory plus the
user-supplied output path, from optimizer.py:

* `gifCache fps size` — `_file_name(fps, size)`, i.e. `"fps-size.gif"`;
* `fullCache fps size lossy` — `_file_name(fps, size, lossy)`;
* `palette` — `palette.png`; `intermediate` — `intermediate.avi`;
* `tmpName n` — the n-th random `_temp_file()` name
  (`secrets.token_urlsafe()`, never colliding with a deterministic name);
* `outputFile` — the `output_file` path passed to `optimize`, outside the
  working directory.

`fps` is a rational: `optimize` receives it as a Python float from
`trial.suggest_float`. -/
inductive FName where
  | gifCache (fps : ℚ) (size : Int)
  | fullCache (fps : ℚ) (size : Int) (lossy : Int)
  | palette
  | intermediate
  | tmpName (n : Nat)
  | outputFile
deriving DecidableEq

/-- Does a name match the `__exit__` cleanup glob `tmp/*.gif`
(optimizer.py lines 36-38)?  All three gif name shapes live in the working
directory and end in `.gif`; `palette.png`, `intermediate.avi` and the
output path do not match. -/
def isTmpGif : FName → Bool
  | FName.gifCache _ _ => true
  | FName.fullCache _ _ _ => true
  | FName.tmpName _ => true
  | _ => false

/-- One external subprocess invocation, with the arguments that identify it. -/
inductive ExtCall where
  | probe
  | mkPalette
  | mkIntermediate (fps : ℚ) (size : Int)
  | ffmpegGif (fps : ℚ) (size : Int)
  | gifsicle (fps : ℚ) (size : Int) (lossy : Int)
deriving DecidableEq

/-- The observable state of one Optimizer instance: the files present (name
to abstract content; a file's byte size is identified with its content
value), the counter supplying fresh random temp names, and the log of
external invocations made so far. -/
structure OptState where
  files : FName → Option Nat
  tmpCounter : Nat
  calls : List ExtCall

/-- A parameter triple proposed by one optuna trial:
`fps = trial.suggest_float(...)`, `size`/`lossy = trial.suggest_int(...)`. -/
structure Cand where
  fps : ℚ
  size : Int
  lossy : Int
deriving DecidableEq

/-- `Optimizer._to_gif_ffmpeg` (optimizer.py lines 116-144): return the
cached `"fps-size.gif"` if it exists; otherwise run ffmpeg writing to a
fresh random temp name and rename it to the deterministic name afterwards.
`ext n` is the outcome of the n-th external invocation (`none`: the
subprocess failed and `check=True` raises, in which case no rename happens;
whatever partial output the tool left sits at the random temp name and is
irrelevant to the cache, so it is not modelled). -/
def toGifFfmpeg (ext : Nat → Option Nat) (st : OptState) (fps : ℚ) (size : Int) :
    OptState × Except Unit FName :=
  let name := FName.gifCache fps size
  if (st.files name).isSome then (st, Except.ok name)
  else
    let tmpN := FName.tmpName st.tmpCounter
    let stA := { st with tmpCounter := st.tmpCounter + 1 }
    let res := ext stA.calls.length
    let stB := { stA with calls := stA.calls ++ [ExtCall.ffmpegGif fps size] }
    match res with
    | none => (stB, Except.error ())
    | some c =>
      let written := fun k => if k = tmpN then some c else stB.files k
      let renamed := fun k =>
        if k = name then written tmpN else if k = tmpN then none else written k
      ({ stB with files := renamed }, Except.ok name)

/-- `Optimizer._to_gif` (optimizer.py lines 146-167): ensure the uncompressed
render exists via `_to_gif_ffmpeg` (unconditionally, even when the compressed
file is already cached), then return the cached `"fps-size-lossy.gif"` with
its size if present; otherwise run gifsicle to a fresh temp name and rename
on success. -/
def toGif (ext : Nat → Option Nat) (st : OptState) (fps : ℚ) (size lossy : Int) :
    OptState × Except Unit (FName × Nat) :=
  match toGifFfmpeg ext st fps size with
  | (st1, Except.error e) => (st1, Except.error e)
  | (st1, Except.ok _created) =>
    let name := FName.fullCache fps size lossy
    match st1.files name with
    | some sz => (st1, Except.ok (name, sz))
    | none =>
      let tmpN := FName.tmpName st1.tmpCounter
      let stA := { st1 with tmpCounter := st1.tmpCounter + 1 }
      let res := ext stA.calls.length
      let stB := { stA with calls := stA.calls ++ [ExtCall.gifsicle fps size lossy] }
      match res with
      | none => (stB, Except.error ())
      | some c =>
        let written := fun k => if k = tmpN then some c else stB.files k
        let renamed := fun k =>
          if k = name then written tmpN else if k = tmpN then none else written k
        ({ stB with files := renamed }, Except.ok (name, c))

/-- `Optimizer._create_intermediate` (optimizer.py lines 98-114): no-op when
`intermediate.avi` exists; otherwise one ffmpeg invocation writing directly
to it (`-y`), raising on failure. -/
def createIntermediate (ext : Nat → Option Nat) (st : OptState) (fps : ℚ)
    (size : Int) : OptState × Except Unit Unit :=
  if (st.files FName.intermediate).isSome then (st, Except.ok ())
  else
    let res := ext st.calls.length
    let stB := { st with calls := st.calls ++ [ExtCall.mkIntermediate fps size] }
    match res with
    | none => (stB, Except.error ())
    | some c =>
      ({ stB with files := fun k => if k = FName.intermediate then some c else stB.files k },
       Except.ok ())

/-- `Optimizer._create_palette` (optimizer.py lines 78-96): no-op when
`palette.png` exists; otherwise one ffmpeg invocation writing directly to it. -/
def createPalette (ext : Nat → Option Nat) (st : OptState) :
    OptState × Except Unit Unit :=
  if (st.files FName.palette).isSome then (st, Except.ok ())
  else
    let res := ext st.calls.length
    let stB := { st with calls := st.calls ++ [ExtCall.mkPalette] }
    match res with
    | none => (stB, Except.error ())
    | some c =>
      ({ stB with files := fun k => if k = FName.palette then some c else stB.files k },
       Except.ok ())

/-- The trial loop of `optimize` (the `study.optimize(objective, ...)` body,
optimizer.py lines 221-252, with the sequence of suggested candidates
supplied as a list): each trial renders its candidate through `_to_gif` and
records the resulting byte size; the pure score arithmetic of `objective`
has no effect on the state.  A render failure aborts the whole loop
(`CalledProcessError` propagates out of `study.optimize`). -/
def processTrials (ext : Nat → Option Nat) (st : OptState) :
    List Cand → OptState × Except Unit (List (Cand × Nat))
  | [] => (st, Except.ok [])
  | c :: cs =>
    match toGif ext st c.fps c.size c.lossy with
    | (st1, Except.error e) => (st1, Except.error e)
    | (st1, Except.ok (_, sz)) =>
      match processTrials ext st1 cs with
      | (st2, Except.error e) => (st2, Except.error e)
      | (st2, Except.ok acc) => (st2, Except.ok ((c, sz) :: acc))

/-- The promotion step of `optimize` (optimizer.py lines 256-263): look up
the cache file of the best parameters and rename (move) it to the output
path; `best_gif.stat()` raises when no such file exists.  The oversize
warning print has no state effect and is not modelled. -/
def promote (st : OptState) (best : Cand) : OptState × Except Unit Unit :=
  let name := FName.fullCache best.fps best.size best.lossy
  match st.files name with
  | none => (st, Except.error ())
  | some c =>
    ({ st with files := fun k =>
        if k = FName.outputFile then some c
        else if k = name then none
        else st.files k },
     Except.ok ())

/-- `Optimizer.__exit__` (optimizer.py lines 36-38): unlink every `*.gif` in
the working directory.  Runs whenever the `with` scope ends — after success,
failure, or interruption. -/
def exitCleanup (st : OptState) : OptState :=
  { st with files := fun k => if isTmpGif k then none else st.files k }

/-- The keyword parameters of `Optimizer.optimize` that the validation
prelude inspects.  `fpsMin`/`fpsMax` are rationals (the CLI may pass
floats); the others are integers. -/
structure OptimizeParams where
  outputSizeLimit : Int
  fpsMin : ℚ
  fpsMax : ℚ
  sizeMin : Int
  sizeMax : Int
  lossyMin : Int
  lossyMax : Int

/-- The validation prelude of `optimize` (optimizer.py lines 184-206), check
for check in source order; `some msg` models the `ValueError(msg)` raised.
`nativeFps` and `width` are `self.fps` and `self.width` learnt by the
construction-time ffprobe. -/
def validate (nativeFps : ℚ) (width : Int) (p : OptimizeParams) : Option String :=
  if p.outputSizeLimit ≤ 0 then some "output_size_limit must be larger than zero"
  else if ¬ (0 < p.fpsMin ∧ p.fpsMin ≤ nativeFps) then some "fps_min out of range"
  else if ¬ (0 < p.fpsMax ∧ p.fpsMax ≤ nativeFps) then some "fps_max out of range"
  else if p.fpsMin > p.fpsMax then some "fps_min must be at most fps_max"
  else if ¬ (1 ≤ p.sizeMin ∧ p.sizeMin ≤ width) then some "size_min out of range"
  else if ¬ (1 ≤ p.sizeMax ∧ p.sizeMax ≤ width) then some "size_max out of range"
  else if p.sizeMin > p.sizeMax then some "size_min must be at most size_max"
  else if ¬ (0 ≤ p.lossyMin ∧ p.lossyMin ≤ 200) then some "lossy_min out of range"
  else if ¬ (0 ≤ p.lossyMax ∧ p.lossyMax ≤ 200) then some "lossy_max out of range"
  else if p.lossyMin > p.lossyMax then some "lossy_min must be at most lossy_max"
  else none

/-- A full `Optimizer.optimize` call (optimizer.py lines 169-265): validate;
optionally materialize the intermediate (when the requested ceilings are
strictly below the native fps/width); materialize the palette; run the trial
loop; promote the winner.  `bestPick` abstracts `study.best_params`, optuna's
selection among the completed trials' results. -/
def optimizeRun (ext : Nat → Option Nat) (bestPick : List (Cand × Nat) → Cand)
    (nativeFps : ℚ) (width : Int) (p : OptimizeParams) (trials : List Cand)
    (st0 : OptState) : OptState × Except String Unit :=
  match validate nativeFps width p with
  | some msg => (st0, Except.error msg)
  | none =>
    let s1 := if p.fpsMax < nativeFps ∨ p.sizeMax < width
              then createIntermediate ext st0 p.fpsMax p.sizeMax
              else (st0, Except.ok ())
    match s1 with
    | (st1, Except.error _) => (st1, Except.error "render failed")
    | (st1, Except.ok _) =>
      match createPalette ext st1 with
      | (st2, Except.error _) => (st2, Except.error "render failed")
      | (st2, Except.ok _) =>
        match processTrials ext st2 trials with
        | (st3, Except.error _) => (st3, Except.error "render failed")
        | (st3, Except.ok results) =>
          match promote st3 (bestPick results) with
          | (st4, Except.error _) => (st4, Except.error "stat failed")
          | (st4, Except.ok _) => (st4, Except.ok ())

/-- The `delta` helper of optimizer.py (lines 268-272):

    div = abs(min - max)
    if div == 0: return 1.0
    return abs(min - x) / div

(the Python parameters are named `min`/`max`; renamed here to avoid clashing
with the root namespace). -/
def delta (mn mx x : ℚ) : ℚ :=
  let dv := |mn - mx|
  if dv = 0 then 1 else |mn - x| / dv

/-- The quality-distance computed by `objective` (optimizer.py lines
230-241): fps distance linear, size distance to the power 0.75, lossy
distance inverted then to the power 2.5, summed.  Float arithmetic is
modelled over ℝ (fractional powers as `Real.rpow`). -/
noncomputable def objectiveDist (fpsMin fpsMax fps : ℚ) (sizeMin sizeMax size : Int)
    (lossyMin lossyMax lossy : Int) : ℝ :=
  let dist_fps : ℝ := (delta fpsMin fpsMax fps : ℚ)
  let dist_size : ℝ := ((delta (sizeMin : ℚ) (sizeMax : ℚ) (size : ℚ) : ℚ) : ℝ) ^ (0.75 : ℝ)
  let dist_lossy : ℝ :=
    ((1 : ℝ) - ((delta (lossyMin : ℚ) (lossyMax : ℚ) (lossy : ℚ) : ℚ) : ℝ)) ^ (2.5 : ℝ)
  dist_fps + dist_size + dist_lossy

/-- Modelled from the spec: the per-dimension normalized distance exactly as
the specification words it — `d = |min - x| / |min - max|`, defined as `1.0`
when `min == max`. -/
def specDelta (mn mx x : ℚ) : ℚ :=
  if mn = mx then 1 else |mn - x| / |mn - mx|

/-- Modelled from the spec: the scorer shape the specification describes —
the fps distance used linearly, the size distance raised to a power `p`, the
lossy distance inverted and raised to a power `q`, and the three transformed
distances summed. -/
noncomputable def specScore (p q : ℝ) (dFps dSize dLossy : ℚ) : ℝ :=
  (dFps : ℝ) + (dSize : ℝ) ^ p + ((1 : ℝ) - (dLossy : ℝ)) ^ q

/-- The invalid-bounds condition exactly as claim C7 words it: some
dimension has `min > max`, or some bound falls outside its domain —
fps bounds outside `(0, nativeFps]`, size bounds outside `[1, width]`,
lossy bounds outside `[0, 200]`. -/
def badBounds (nativeFps : ℚ) (width : Int) (p : OptimizeParams) : Prop :=
  p.fpsMin > p.fpsMax ∨ p.sizeMin > p.sizeMax ∨ p.lossyMin > p.lossyMax ∨
  ¬ (0 < p.fpsMin ∧ p.fpsMin ≤ nativeFps) ∨ ¬ (0 < p.fpsMax ∧ p.fpsMax ≤ nativeFps) ∨
  ¬ (1 ≤ p.sizeMin ∧ p.sizeMin ≤ width) ∨ ¬ (1 ≤ p.sizeMax ∧ p.sizeMax ≤ width) ∨
  ¬ (0 ≤ p.lossyMin ∧ p.lossyMin ≤ 200) ∨ ¬ (0 ≤ p.lossyMax ∧ p.lossyMax ≤ 200)

/-- A fresh working-directory state: no files, no invocations yet (the state
right after `tempfile.mkdtemp` in `Optimizer.__init__`, with the
construction-time ffprobe left out of the log). -/
def stEmpty : OptState := ⟨fun _ => none, 0, []⟩

/-- The memoization invariant of the render cache: an external frame-render
(resp. compression) invocation for a key has happened at most once, and only
if the deterministically named file for that key is now present. -/
def CacheInv (st : OptState) : Prop :=
  (∀ f s, st.calls.count (ExtCall.ffmpegGif f s) ≤
     (if (st.files (FName.gifCache f s)).isSome then 1 else 0)) ∧
  (∀ f s l, st.calls.count (ExtCall.gifsicle f s l) ≤
     (if (st.files (FName.fullCache f s l)).isSome then 1 else 0))

theorem bisect_snd_getLast? (o : Nat → Bool) (fuel : Nat) :
    ∀ (k : Nat) (vals found : List Vals),
      (bisect o fuel k vals found).2.getLast? = searchLoop o fuel k vals found.getLast? := by
  induction fuel with
  | zero => intro k vals found; rfl
  | succ fuel ih =>
    intro k vals found
    by_cases h : 1 < vals.length
    · cases hok : o k
      · simp only [bisect, searchLoop, dif_pos h, hok, Bool.false_eq_true, if_false]
        exact ih (k + 1) (vals.drop (vals.length / 2)) found
      · simp only [bisect, searchLoop, dif_pos h, hok, if_true]
        rw [ih (k + 1) _ (found ++ [vals.get ⟨vals.length / 2, by omega⟩]),
          List.getLast?_concat]
    · simp only [bisect, searchLoop, dif_neg h]

theorem searchLoop_isSome (o : Nat → Bool) (fuel : Nat) :
    ∀ (k : Nat) (sl : List Vals) (b : Vals),
      ∃ c, searchLoop o fuel k sl (some b) = some c := by
  induction fuel with
  | zero => intro k sl b; exact ⟨b, rfl⟩
  | succ fuel ih =>
    intro k sl b
    by_cases h : 1 < sl.length
    · cases hok : o k
      · simpa only [searchLoop, dif_pos h, hok, Bool.false_eq_true, if_false] using
          ih (k + 1) (sl.drop (sl.length / 2)) b
      · simpa only [searchLoop, dif_pos h, hok, if_true] using
          ih (k + 1) (sl.take (sl.length / 2)) (sl.get ⟨sl.length / 2, by omega⟩)
    · exact ⟨b, by simp only [searchLoop, dif_neg h]⟩

theorem sortedGrid_sorted {D : Type} [LinearOrder D] (score : Vals → D)
    (fps size lossy : MinMax) :
    List.Sorted (fun a b => score b ≤ score a) (sortedGrid score fps size lossy) := by
  haveI : IsTotal Vals (fun a b => score b ≤ score a) :=
    ⟨fun a b => le_total (score b) (score a)⟩
  haveI : IsTrans Vals (fun a b => score b ≤ score a) :=
    ⟨fun _ _ _ hab hbc => le_trans hbc hab⟩
  exact List.sorted_insertionSort _ _

/-- Claim C1 (amended): the elimination search probes the median of the
current slice of the descending-sorted candidate list; a confirmed probe
becomes the new best-so-far and the slice narrows to the prefix of
equal-or-higher-scored candidates; a failed probe discards exactly the
candidates ranked strictly above the probed one — the probed candidate
itself stays at the head of the kept lower half (though it is never probed
again); if any candidate was ever confirmed, the run returns the final
best-so-far.  Stated as: the embedded generator agrees with the explicit
slice/best-so-far state machine `searchRun` on every run, the list searched
is sorted descending by score, and on any descending-sorted slice the two
halves are as just described — every candidate in the kept prefix after a
success scores at least the probed median, and the slice kept after a
failure starts with the probed median itself. -/
theorem values_run_amended {D : Type} [LinearOrder D] (score : Vals → D)
    (fps size lossy : MinMax) (o : Nat → Bool) :
    ((valuesRun score fps size lossy o).outcome =
      match searchRun score fps size lossy o with
      | some v => Outcome.result v
      | none => Outcome.unsat) ∧
    List.Sorted (fun a b => score b ≤ score a) (sortedGrid score fps size lossy) ∧
    (∀ sl : List Vals, List.Sorted (fun a b => score b ≤ score a) sl →
      1 < sl.length →
      ∀ m ∈ (sl.drop (sl.length / 2)).head?,
        (∀ v ∈ sl.take (sl.length / 2), score m ≤ score v) ∧
        sl.drop (sl.length / 2) = m :: sl.drop (sl.length / 2 + 1)) := by
  refine ⟨?_, sortedGrid_sorted score fps size lossy, ?_⟩
  · by_cases h0 : o 0
    · simp [valuesRun, searchRun, h0]
    · by_cases h1 : o 1
      · obtain ⟨c, hc⟩ := searchLoop_isSome o
          (sortedGrid score fps size lossy).length 2 (sortedGrid score fps size lossy)
          ⟨fps.min, size.min, lossy.max⟩
        have hb := bisect_snd_getLast? o (sortedGrid score fps size lossy).length 2
          (sortedGrid score fps size lossy) [⟨fps.min, size.min, lossy.max⟩]
        simp only [List.getLast?_singleton] at hb
        simp [valuesRun, searchRun, h0, h1, List.getLastD_eq_getLast?, hb, hc]
      · simp [valuesRun, searchRun, h0, h1]
  · intro sl hs hlen m hm
    have hn : sl.length / 2 < sl.length := by omega
    have hdrop := List.drop_eq_getElem_cons hn
    have hmm : m = sl[sl.length / 2] := by
      rw [hdrop] at hm
      simp only [List.head?_cons, Option.mem_def, Option.some.injEq] at hm
      exact hm.symm
    subst hmm
    refine ⟨?_, hdrop⟩
    intro v hv
    have hp : List.Pairwise (fun a b => score b ≤ score a)
        (sl.take (sl.length / 2) ++ sl.drop (sl.length / 2)) := by
      rw [List.take_append_drop]; exact hs
    rcases List.pairwise_append.mp hp with ⟨-, -, hcross⟩
    refine hcross v hv _ ?_
    rw [hdrop]; exact List.mem_cons_self _ _

theorem values_run_amended_witness :
    ((valuesRun (fun v : Vals => -v.lossy) ⟨1, 1⟩ ⟨1, 1⟩ ⟨0, 4⟩
        (fun k => k = 1 || k = 3)).outcome =
      match searchRun (fun v : Vals => -v.lossy) ⟨1, 1⟩ ⟨1, 1⟩ ⟨0, 4⟩
          (fun k => k = 1 || k = 3) with
      | some v => Outcome.result v
      | none => Outcome.unsat) ∧
    ((∀ v ∈ ([⟨1, 1, 0⟩, ⟨1, 1, 1⟩, ⟨1, 1, 2⟩, ⟨1, 1, 3⟩, ⟨1, 1, 4⟩] : List Vals).take 2,
        -(⟨1, 1, 2⟩ : Vals).lossy ≤ -v.lossy) ∧
      ([⟨1, 1, 0⟩, ⟨1, 1, 1⟩, ⟨1, 1, 2⟩, ⟨1, 1, 3⟩, ⟨1, 1, 4⟩] : List Vals).drop 2 =
        ⟨1, 1, 2⟩ ::
          ([⟨1, 1, 0⟩, ⟨1, 1, 1⟩, ⟨1, 1, 2⟩, ⟨1, 1, 3⟩, ⟨1, 1, 4⟩] : List Vals).drop 3) := by
  refine ⟨(values_run_amended (fun v : Vals => -v.lossy) ⟨1, 1⟩ ⟨1, 1⟩ ⟨0, 4⟩
    (fun k => k = 1 || k = 3)).1, ?_⟩
  exact (values_run_amended (fun v : Vals => -v.lossy) ⟨1, 1⟩ ⟨1, 1⟩ ⟨0, 4⟩
    (fun k => k = 1 || k = 3)).2.2
    [⟨1, 1, 0⟩, ⟨1, 1, 1⟩, ⟨1, 1, 2⟩, ⟨1, 1, 3⟩, ⟨1, 1, 4⟩] (by decide) (by decide)
    ⟨1, 1, 2⟩ (by decide)

/-- Claim C1 as stated is false on the code: it says a failed probe discards
"the probed candidate and every candidate scored at or above it".  Take the
grid fps=[1,1], size=[1,1], lossy=[0,4].  There the code's distance formula
reduces to `(2 + (200 - lossy)/4)^(1/3)`, strictly decreasing in lossy, so
the descending-by-distance sort orders the five candidates by ascending
lossy — the ranking `score v = -v.lossy` induces.  With the oracle answering
false, true, false, true to the probes in order, the program probes the
corners `(1,1,0)` (failed) and `(1,1,4)` (confirmed), then bisects: it
probes the median `(1,1,2)` (failed), keeps `vals[median:]` — retaining the
probed candidate — so next probes `(1,1,3)` (confirmed) and returns
`(1,1,3)`.  Under the claim's rule, the failed probe of `(1,1,2)` would
discard it together with the better-ranked `(1,1,0)` and `(1,1,1)`, leaving
the slice `[(1,1,3), (1,1,4)]`; its median probe is `(1,1,4)`, which the
oracle confirms, so the claimed procedure returns `(1,1,4)` — a different
final candidate. -/
theorem values_run_claim_counterexample :
    (valuesRun (fun v : Vals => -v.lossy) ⟨1, 1⟩ ⟨1, 1⟩ ⟨0, 4⟩
        (fun k => k = 1 || k = 3)).transcript =
      [(⟨1, 1, 0⟩, false), (⟨1, 1, 4⟩, true), (⟨1, 1, 2⟩, false), (⟨1, 1, 3⟩, true)] ∧
    (valuesRun (fun v : Vals => -v.lossy) ⟨1, 1⟩ ⟨1, 1⟩ ⟨0, 4⟩
        (fun k => k = 1 || k = 3)).outcome = Outcome.result ⟨1, 1, 3⟩ ∧
    claimRun (fun v : Vals => -v.lossy) ⟨1, 1⟩ ⟨1, 1⟩ ⟨0, 4⟩
        (fun k => k = 1 || k = 3) = some ⟨1, 1, 4⟩ ∧
    ¬ ((valuesRun (fun v : Vals => -v.lossy) ⟨1, 1⟩ ⟨1, 1⟩ ⟨0, 4⟩
          (fun k => k = 1 || k = 3)).outcome =
        match claimRun (fun v : Vals => -v.lossy) ⟨1, 1⟩ ⟨1, 1⟩ ⟨0, 4⟩
            (fun k => k = 1 || k = 3) with
        | some v => Outcome.result v
        | none => Outcome.unsat) := by decide

/-- Claim C2 (confirmed): the run raises `UnsatisfiableConstraints` exactly
when the oracle answered false to every candidate proposed — equivalently,
exactly when no proposed candidate was ever confirmed satisfying. -/
theorem values_unsat_iff_all_false {D : Type} [LinearOrder D] (score : Vals → D)
    (fps size lossy : MinMax) (o : Nat → Bool) :
    (valuesRun score fps size lossy o).outcome = Outcome.unsat ↔
    ∀ p ∈ (valuesRun score fps size lossy o).transcript, p.2 = false := by
  constructor
  · intro h p hp
    by_cases h0 : o 0
    · simp [valuesRun, h0] at h
    · by_cases h1 : o 1
      · simp [valuesRun, h0, h1] at h
      · simp [valuesRun, h0, h1] at hp
        rcases hp with hp | hp <;> simp [hp]
  · intro h
    by_cases h0 : o 0
    · have := h (⟨fps.max, size.max, lossy.min⟩, true) (by simp [valuesRun, h0])
      simp at this
    · by_cases h1 : o 1
      · have := h (⟨fps.min, size.min, lossy.max⟩, true) (by simp [valuesRun, h0, h1])
        simp at this
      · simp [valuesRun, h0, h1]

theorem bisect_of_len_le_one (o : Nat → Bool) (fuel k : Nat) (vals found : List Vals)
    (h : vals.length ≤ 1) : bisect o fuel k vals found = ([], found) := by
  cases fuel with
  | zero => rfl
  | succ f => simp only [bisect, dif_neg (by omega : ¬ 1 < vals.length)]

theorem flatMap_const_length {α β : Type} (xs : List α) (g : α → List β) (c : Nat)
    (h : ∀ a ∈ xs, (g a).length = c) : (xs.flatMap g).length = xs.length * c := by
  induction xs with
  | nil => simp
  | cons a xs ih =>
    simp only [List.flatMap_cons, List.length_append, List.length_cons]
    rw [h a (by simp), ih (fun b hb => h b (by simp [hb]))]
    ring

theorem intRange_length (a b : Int) : (intRange a b).length = (b + 1 - a).toNat := by
  rw [intRange, List.length_map, List.length_range]

theorem mkGrid_length (fps size lossy : MinMax) :
    (mkGrid fps size lossy).length =
      (fps.max + 1 - fps.min).toNat *
        ((size.max + 1 - size.min).toNat * (lossy.max + 1 - lossy.min).toNat) := by
  unfold mkGrid
  rw [flatMap_const_length _ _
    ((size.max + 1 - size.min).toNat * (lossy.max + 1 - lossy.min).toNat)
    (fun f _ => by
      rw [flatMap_const_length _ _ (lossy.max + 1 - lossy.min).toNat
        (fun s _ => by simp [intRange_length]), intRange_length]),
    intRange_length]

theorem sortedGrid_length {D : Type} [LinearOrder D] (score : Vals → D)
    (fps size lossy : MinMax) :
    (sortedGrid score fps size lossy).length =
      (fps.max + 1 - fps.min).toNat *
        ((size.max + 1 - size.min).toNat * (lossy.max + 1 - lossy.min).toNat) := by
  rw [sortedGrid, List.length_insertionSort, mkGrid_length]

/-- Claim C5 (amended): when all three Bounds collapse to a single point the
grid has exactly one candidate and no bisection happens, but the corner
probes still run: the search makes exactly one oracle call when the first
probe (the maximum = the unique candidate) is confirmed, and exactly two —
re-probing the same unique triple — when it is not. -/
theorem values_single_point_calls {D : Type} [LinearOrder D] (score : Vals → D)
    (fps size lossy : MinMax) (o : Nat → Bool)
    (hf : fps.min = fps.max) (hs : size.min = size.max) (hl : lossy.min = lossy.max) :
    (valuesRun score fps size lossy o).transcript.length = if o 0 then 1 else 2 := by
  by_cases h0 : o 0
  · simp [valuesRun, h0]
  · by_cases h1 : o 1
    · have hlen : (sortedGrid score fps size lossy).length = 1 := by
        rw [sortedGrid_length]
        have e1 : (fps.max + 1 - fps.min).toNat = 1 := by omega
        have e2 : (size.max + 1 - size.min).toNat = 1 := by omega
        have e3 : (lossy.max + 1 - lossy.min).toNat = 1 := by omega
        rw [e1, e2, e3]
      rw [valuesRun]
      simp only [h0, if_false, h1, if_true]
      rw [bisect_of_len_le_one o _ 2 _ _ (by rw [hlen])]
      simp
    · simp [valuesRun, h0, h1]

theorem values_single_point_calls_witness :
    (valuesRun (fun _ : Vals => (0 : Int)) ⟨5, 5⟩ ⟨5, 5⟩ ⟨5, 5⟩
      (fun _ => true)).transcript.length = 1 := by
  have h := values_single_point_calls (fun _ : Vals => (0 : Int)) ⟨5, 5⟩ ⟨5, 5⟩ ⟨5, 5⟩
    (fun _ => true) rfl rfl rfl
  simpa using h

/-- Claim C5 as stated is false on the code: with `min == max` on all three
dimensions and an oracle that rejects the (unique) candidate, the run makes
two oracle calls, not one — the single triple is probed once as the "maximum
options" corner and once more as the "minimum options" corner. -/
theorem values_single_point_counterexample :
    (valuesRun (fun _ : Vals => (0 : Int)) ⟨5, 5⟩ ⟨5, 5⟩ ⟨5, 5⟩
        (fun _ => false)).transcript.length = 2 ∧
    ¬ ((valuesRun (fun _ : Vals => (0 : Int)) ⟨5, 5⟩ ⟨5, 5⟩ ⟨5, 5⟩
        (fun _ => false)).transcript.length = 1) := by decide

theorem bisect_transcript_le_clog (o : Nat → Bool) :
    ∀ (fuel k : Nat) (vals found : List Vals), vals.length ≤ fuel →
      (bisect o fuel k vals found).1.length ≤ Nat.clog 2 vals.length := by
  intro fuel
  induction fuel with
  | zero => intro k vals found h; simp [bisect]
  | succ fuel ih =>
    intro k vals found h
    by_cases hl : 1 < vals.length
    · have hkey : Nat.clog 2 vals.length = Nat.clog 2 ((vals.length + 1) / 2) + 1 := by
        have h2 := @Nat.clog_of_two_le 2 vals.length (by norm_num) (by omega)
        have harg : vals.length + 2 - 1 = vals.length + 1 := by omega
        rw [h2, harg]
      cases hok : o k
      · simp only [bisect, dif_pos hl, hok, Bool.false_eq_true, if_false, List.length_cons]
        have hdl : (vals.drop (vals.length / 2)).length = (vals.length + 1) / 2 := by
          rw [List.length_drop]; omega
        have hrec := ih (k + 1) (vals.drop (vals.length / 2)) found (by omega)
        rw [hdl] at hrec
        omega
      · simp only [bisect, dif_pos hl, hok, if_true, List.length_cons]
        have hdl : (vals.take (vals.length / 2)).length = vals.length / 2 := by
          rw [List.length_take]; omega
        have hrec := ih (k + 1) (vals.take (vals.length / 2))
          (found ++ [vals.get ⟨vals.length / 2, by omega⟩]) (by omega)
        rw [hdl] at hrec
        have hmono : Nat.clog 2 (vals.length / 2) ≤ Nat.clog 2 ((vals.length + 1) / 2) :=
          Nat.clog_mono_right 2 (by omega)
        omega
    · rw [bisect_of_len_le_one o _ k vals found (by omega)]
      simp

/-- Claim C4 (confirmed): the search always terminates (the embedding is a
total function; the loop's slice length strictly shrinks), the grid has
exactly N = (range of fps) x (range of size) x (range of lossy) candidates,
and a run makes at most ceil(log2 N) + 2 oracle calls — the additive
constant being the two initial corner probes. -/
theorem values_call_count_le {D : Type} [LinearOrder D] (score : Vals → D)
    (fps size lossy : MinMax) (o : Nat → Bool) :
    (sortedGrid score fps size lossy).length =
      (fps.max + 1 - fps.min).toNat *
        ((size.max + 1 - size.min).toNat * (lossy.max + 1 - lossy.min).toNat) ∧
    (valuesRun score fps size lossy o).transcript.length ≤
      Nat.clog 2 ((fps.max + 1 - fps.min).toNat *
        ((size.max + 1 - size.min).toNat * (lossy.max + 1 - lossy.min).toNat)) + 2 := by
  refine ⟨sortedGrid_length score fps size lossy, ?_⟩
  rw [← sortedGrid_length score fps size lossy]
  by_cases h0 : o 0
  · simp [valuesRun, h0]
  · by_cases h1 : o 1
    · have hb := bisect_transcript_le_clog o (sortedGrid score fps size lossy).length 2
        (sortedGrid score fps size lossy) [⟨fps.min, size.min, lossy.max⟩] (le_refl _)
      simp [valuesRun, h0, h1]
      omega
    · simp [valuesRun, h0, h1]

theorem bisect_found_append (o : Nat → Bool) :
    ∀ (fuel k : Nat) (vals found : List Vals),
      ∃ ex, (bisect o fuel k vals found).2 = found ++ ex := by
  intro fuel
  induction fuel with
  | zero => intro k vals found; exact ⟨[], by simp [bisect]⟩
  | succ fuel ih =>
    intro k vals found
    by_cases hl : 1 < vals.length
    · cases hok : o k
      · obtain ⟨ex, hex⟩ := ih (k + 1) (vals.drop (vals.length / 2)) found
        exact ⟨ex, by simp only [bisect, dif_pos hl, hok, Bool.false_eq_true, if_false]; exact hex⟩
      · obtain ⟨ex, hex⟩ := ih (k + 1) (vals.take (vals.length / 2))
          (found ++ [vals.get ⟨vals.length / 2, by omega⟩])
        refine ⟨vals.get ⟨vals.length / 2, by omega⟩ :: ex, ?_⟩
        simp only [bisect, dif_pos hl, hok, if_true]
        rw [hex, List.append_assoc]
        rfl
    · exact ⟨[], by rw [bisect_of_len_le_one o _ k vals found (by omega)]; simp⟩

theorem bisect_mem_found (o : Nat → Bool) :
    ∀ (fuel k : Nat) (vals found : List Vals) (v : Vals),
      v ∈ (bisect o fuel k vals found).2 →
      v ∈ found ∨ (v, true) ∈ (bisect o fuel k vals found).1 := by
  intro fuel
  induction fuel with
  | zero => intro k vals found v hv; exact Or.inl hv
  | succ fuel ih =>
    intro k vals found v hv
    by_cases hl : 1 < vals.length
    · cases hok : o k
      · simp only [bisect, dif_pos hl, hok, Bool.false_eq_true, if_false] at hv ⊢
        rcases ih (k + 1) (vals.drop (vals.length / 2)) found v hv with h | h
        · exact Or.inl h
        · exact Or.inr (List.mem_cons_of_mem _ h)
      · simp only [bisect, dif_pos hl, hok, if_true] at hv ⊢
        rcases ih (k + 1) (vals.take (vals.length / 2))
            (found ++ [vals.get ⟨vals.length / 2, by omega⟩]) v hv with h | h
        · rcases List.mem_append.mp h with h | h
          · exact Or.inl h
          · simp only [List.mem_singleton] at h
            subst h
            exact Or.inr (List.mem_cons_self _ _)
        · exact Or.inr (List.mem_cons_of_mem _ h)
    · rw [bisect_of_len_le_one o _ k vals found (by omega)] at hv
      exact Or.inl hv

theorem getLastD_mem_of_ne_nil {α : Type} (l : List α) (d : α) (h : l ≠ []) :
    l.getLastD d ∈ l := by
  rw [List.getLastD_eq_getLast?, List.getLast?_eq_getLast l h]
  exact List.getLast_mem h

/-- Claim C10 (confirmed): whenever the search returns a final candidate
(instead of raising), that candidate is one the oracle confirmed during the
run — some yield of exactly that triple was answered true. -/
theorem values_returns_confirmed {D : Type} [LinearOrder D] (score : Vals → D)
    (fps size lossy : MinMax) (o : Nat → Bool) (v : Vals)
    (h : (valuesRun score fps size lossy o).outcome = Outcome.result v) :
    (v, true) ∈ (valuesRun score fps size lossy o).transcript := by
  by_cases h0 : o 0
  · simp [valuesRun, h0] at h ⊢
    simp [h.symm]
  · by_cases h1 : o 1
    · have hv : v = (bisect o (sortedGrid score fps size lossy).length 2
          (sortedGrid score fps size lossy)
          [⟨fps.min, size.min, lossy.max⟩]).2.getLastD ⟨fps.min, size.min, lossy.max⟩ := by
        simp only [valuesRun, h0, Bool.false_eq_true, if_false, h1, if_true,
          Outcome.result.injEq] at h
        exact h.symm
      have hne : (bisect o (sortedGrid score fps size lossy).length 2
          (sortedGrid score fps size lossy) [⟨fps.min, size.min, lossy.max⟩]).2 ≠ [] := by
        obtain ⟨ex, hex⟩ := bisect_found_append o (sortedGrid score fps size lossy).length 2
          (sortedGrid score fps size lossy) [⟨fps.min, size.min, lossy.max⟩]
        simp [hex]
      have hmem := getLastD_mem_of_ne_nil _ (⟨fps.min, size.min, lossy.max⟩ : Vals) hne
      rw [← hv] at hmem
      rcases bisect_mem_found o (sortedGrid score fps size lossy).length 2
          (sortedGrid score fps size lossy) [⟨fps.min, size.min, lossy.max⟩] v hmem with hf | ht
      · simp only [List.mem_singleton] at hf
        subst hf
        simp [valuesRun, h0, h1]
      · simp only [valuesRun, h0, Bool.false_eq_true, if_false, h1, if_true,
          List.mem_cons]
        exact Or.inr (Or.inr ht)
    · simp [valuesRun, h0, h1] at h

theorem values_returns_confirmed_witness :
    ((⟨7, 9, 2⟩ : Vals), true) ∈
      (valuesRun (fun _ : Vals => (0 : Int)) ⟨3, 7⟩ ⟨4, 9⟩ ⟨2, 6⟩
        (fun _ => true)).transcript := by
  exact values_returns_confirmed (fun _ : Vals => (0 : Int)) ⟨3, 7⟩ ⟨4, 9⟩ ⟨2, 6⟩
    (fun _ => true) ⟨7, 9, 2⟩ (by decide)

theorem delta_eq_specDelta (mn mx x : ℚ) : delta mn mx x = specDelta mn mx x := by
  simp only [delta, specDelta]
  by_cases h : mn = mx
  · simp [h]
  · rw [if_neg (by simp [sub_eq_zero, h] : ¬ |mn - mx| = 0), if_neg h]

/-- Claim C6 (confirmed): the scorer of `optimize`'s objective computes, for
each dimension, the normalized distance `d = |min - x| / |min - max|` (1.0
when `min == max`, exactly the `delta` helper), uses the fps distance
linearly, raises the size distance to a power within [0.5, 0.75] (namely
0.75), inverts the lossy distance and raises it to a power at least 2
(namely 2.5), and sums the three transformed distances. -/
theorem objective_dist_matches_spec :
    (∀ mn mx x : ℚ, delta mn mx x = specDelta mn mx x) ∧
    ∃ p : ℝ, (1 / 2 ≤ p ∧ p ≤ 3 / 4) ∧ ∃ q : ℝ, 2 ≤ q ∧
      ∀ (fpsMin fpsMax fps : ℚ) (sizeMin sizeMax size lossyMin lossyMax lossy : Int),
        objectiveDist fpsMin fpsMax fps sizeMin sizeMax size lossyMin lossyMax lossy =
          specScore p q (specDelta fpsMin fpsMax fps)
            (specDelta (sizeMin : ℚ) (sizeMax : ℚ) (size : ℚ))
            (specDelta (lossyMin : ℚ) (lossyMax : ℚ) (lossy : ℚ)) := by
  refine ⟨delta_eq_specDelta, (0.75 : ℝ), ⟨by norm_num, by norm_num⟩,
    (2.5 : ℝ), by norm_num, ?_⟩
  intro fpsMin fpsMax fps sizeMin sizeMax size lossyMin lossyMax lossy
  simp only [objectiveDist, specScore, delta_eq_specDelta]

set_option maxHeartbeats 1000000 in
/-- Claim C7 (confirmed): any call to `optimize` whose bounds are invalid —
some dimension with `min > max`, or a bound outside its domain (fps in
`(0, nativeFps]`, size in `[1, width]`, lossy in `[0, 200]`) — fails with a
`ValueError` raised by the validation prelude, before any render or
intermediate-artifact creation: the returned state is exactly the input
state, so no file was written and no external tool was invoked. -/
theorem optimize_invalid_bounds (ext : Nat → Option Nat)
    (bestPick : List (Cand × Nat) → Cand) (nativeFps : ℚ) (width : Int)
    (p : OptimizeParams) (trials : List Cand) (st0 : OptState)
    (h : badBounds nativeFps width p) :
    ∃ msg, optimizeRun ext bestPick nativeFps width p trials st0 =
      (st0, Except.error msg) := by
  rcases hv : validate nativeFps width p with _ | msg
  · exfalso
    rw [validate] at hv
    split_ifs at hv with h1 h2 h3 h4 h5 h6 h7 h8 h9 h10
    rcases h with hb | hb | hb | hb | hb | hb | hb | hb | hb
    · exact h4 hb
    · exact h7 hb
    · exact h10 hb
    · exact hb h2
    · exact hb h3
    · exact hb h5
    · exact hb h6
    · exact hb h8
    · exact hb h9
  · exact ⟨msg, by rw [optimizeRun, hv]⟩

theorem optimize_invalid_bounds_witness :
    ∃ msg, optimizeRun (fun _ => none) (fun _ => ⟨1, 1, 0⟩) 30 640
      ⟨1, 2, 1, 1, 1, 0, 200⟩ [] stEmpty = (stEmpty, Except.error msg) := by
  exact optimize_invalid_bounds (fun _ => none) (fun _ => ⟨1, 1, 0⟩) 30 640
    ⟨1, 2, 1, 1, 1, 0, 200⟩ [] stEmpty (Or.inl (by norm_num))

theorem toGifFfmpeg_spec (ext : Nat → Option Nat) (st : OptState) (f : ℚ) (s : Int) :
    (∃ w, st.files (FName.gifCache f s) = some w ∧
       toGifFfmpeg ext st f s = (st, Except.ok (FName.gifCache f s))) ∨
    (st.files (FName.gifCache f s) = none ∧ ext st.calls.length = none ∧
       (toGifFfmpeg ext st f s).1.files = st.files ∧
       (toGifFfmpeg ext st f s).1.calls = st.calls ++ [ExtCall.ffmpegGif f s] ∧
       (toGifFfmpeg ext st f s).2 = Except.error ()) ∨
    (∃ c, st.files (FName.gifCache f s) = none ∧ ext st.calls.length = some c ∧
       (toGifFfmpeg ext st f s).2 = Except.ok (FName.gifCache f s) ∧
       (toGifFfmpeg ext st f s).1.calls = st.calls ++ [ExtCall.ffmpegGif f s] ∧
       (toGifFfmpeg ext st f s).1.files = fun k =>
         if k = FName.gifCache f s then some c
         else if k = FName.tmpName st.tmpCounter then none
         else st.files k) := by
  by_cases hf : (st.files (FName.gifCache f s)).isSome
  · obtain ⟨w, hw⟩ := Option.isSome_iff_exists.mp hf
    exact Or.inl ⟨w, hw, by simp [toGifFfmpeg, hw]⟩
  · have hn : st.files (FName.gifCache f s) = none := by
      rcases hx : st.files (FName.gifCache f s) with _ | w
      · rfl
      · rw [hx] at hf; simp at hf
    rcases he : ext st.calls.length with _ | c
    · refine Or.inr (Or.inl ⟨hn, rfl, ?_, ?_, ?_⟩) <;> simp [toGifFfmpeg, hn, he]
    · refine Or.inr (Or.inr ⟨c, hn, rfl, ?_, ?_, ?_⟩)
      · simp [toGifFfmpeg, hn, he]
      · simp [toGifFfmpeg, hn, he]
      · funext k
        simp only [toGifFfmpeg, hn, Option.isSome_none, Bool.false_eq_true, if_false, he]
        by_cases hk1 : k = FName.gifCache f s
        · simp [hk1]
        · by_cases hk2 : k = FName.tmpName st.tmpCounter
          · simp [hk1, hk2]
          · simp [hk1, hk2]

theorem toGifFfmpeg_ok_name (ext : Nat → Option Nat) (st st1 : OptState) (f : ℚ) (s : Int)
    (nm : FName) (h : toGifFfmpeg ext st f s = (st1, Except.ok nm)) :
    nm = FName.gifCache f s := by
  rcases toGifFfmpeg_spec ext st f s with ⟨w, _, heq⟩ | ⟨_, _, _, _, h2⟩ | ⟨c, _, _, h2, _, _⟩
  · rw [heq] at h
    injection h with h1 h2
    injection h2 with h3
    exact h3.symm
  · rw [h] at h2; simp at h2
  · rw [h] at h2
    simp only [Except.ok.injEq] at h2
    exact h2

theorem toGif_spec (ext : Nat → Option Nat) (st : OptState) (f : ℚ) (s l : Int) :
    ((toGifFfmpeg ext st f s).2 = Except.error () ∧
       toGif ext st f s l = ((toGifFfmpeg ext st f s).1, Except.error ())) ∨
    (∃ sz, (toGifFfmpeg ext st f s).2 = Except.ok (FName.gifCache f s) ∧
       (toGifFfmpeg ext st f s).1.files (FName.fullCache f s l) = some sz ∧
       toGif ext st f s l =
         ((toGifFfmpeg ext st f s).1, Except.ok (FName.fullCache f s l, sz))) ∨
    ((toGifFfmpeg ext st f s).2 = Except.ok (FName.gifCache f s) ∧
       (toGifFfmpeg ext st f s).1.files (FName.fullCache f s l) = none ∧
       ext (toGifFfmpeg ext st f s).1.calls.length = none ∧
       (toGif ext st f s l).1.files = (toGifFfmpeg ext st f s).1.files ∧
       (toGif ext st f s l).1.calls =
         (toGifFfmpeg ext st f s).1.calls ++ [ExtCall.gifsicle f s l] ∧
       (toGif ext st f s l).2 = Except.error ()) ∨
    (∃ c, (toGifFfmpeg ext st f s).2 = Except.ok (FName.gifCache f s) ∧
       (toGifFfmpeg ext st f s).1.files (FName.fullCache f s l) = none ∧
       ext (toGifFfmpeg ext st f s).1.calls.length = some c ∧
       (toGif ext st f s l).2 = Except.ok (FName.fullCache f s l, c) ∧
       (toGif ext st f s l).1.calls =
         (toGifFfmpeg ext st f s).1.calls ++ [ExtCall.gifsicle f s l] ∧
       (toGif ext st f s l).1.files = fun k =>
         if k = FName.fullCache f s l then some c
         else if k = FName.tmpName (toGifFfmpeg ext st f s).1.tmpCounter then none
         else (toGifFfmpeg ext st f s).1.files k) := by
  rcases hff : toGifFfmpeg ext st f s with ⟨st1, r⟩
  rcases r with e | nm
  · cases e
    exact Or.inl ⟨rfl, by simp [toGif, hff]⟩
  · have hnm := toGifFfmpeg_ok_name ext st st1 f s nm hff
    subst hnm
    rcases hfull : st1.files (FName.fullCache f s l) with _ | sz
    · rcases he : ext st1.calls.length with _ | c
      · refine Or.inr (Or.inr (Or.inl ⟨rfl, rfl, rfl, ?_, ?_, ?_⟩)) <;>
          simp [toGif, hff, hfull, he]
      · refine Or.inr (Or.inr (Or.inr ⟨c, rfl, rfl, rfl, ?_, ?_, ?_⟩))
        · simp [toGif, hff, hfull, he]
        · simp [toGif, hff, hfull, he]
        · funext k
          simp only [toGif, hff, hfull, he]
          by_cases hk1 : k = FName.fullCache f s l
          · simp [hk1]
          · by_cases hk2 : k = FName.tmpName st1.tmpCounter
            · simp [hk1, hk2]
            · simp [hk1, hk2]
    · exact Or.inr (Or.inl ⟨sz, rfl, rfl, by simp [toGif, hff, hfull]⟩)

theorem toGifFfmpeg_files_mono (ext : Nat → Option Nat) (st : OptState) (f : ℚ) (s : Int)
    (key : FName) (v : Nat) (hk : ∀ n, key ≠ FName.tmpName n) (hv : st.files key = some v) :
    (toGifFfmpeg ext st f s).1.files key = some v := by
  rcases toGifFfmpeg_spec ext st f s with ⟨w, hw, heq⟩ | ⟨_, _, hfi, _, _⟩ |
    ⟨c, hn, _, _, _, hfi⟩
  · rw [heq]; exact hv
  · rw [hfi]; exact hv
  · simp only [hfi]
    have hk1 : key ≠ FName.gifCache f s := by
      intro hkey; rw [hkey, hn] at hv; cases hv
    rw [if_neg hk1, if_neg (hk st.tmpCounter)]
    exact hv

theorem toGifFfmpeg_files_other (ext : Nat → Option Nat) (st : OptState) (f : ℚ) (s : Int)
    (key : FName) (hk1 : ∀ f' s', key ≠ FName.gifCache f' s')
    (hk2 : ∀ n, key ≠ FName.tmpName n) :
    (toGifFfmpeg ext st f s).1.files key = st.files key := by
  rcases toGifFfmpeg_spec ext st f s with ⟨w, hw, heq⟩ | ⟨_, _, hfi, _, _⟩ |
    ⟨c, _, _, _, _, hfi⟩
  · rw [heq]
  · rw [hfi]
  · simp only [hfi]
    rw [if_neg (hk1 f s), if_neg (hk2 st.tmpCounter)]

theorem toGif_files_mono (ext : Nat → Option Nat) (st : OptState) (f : ℚ) (s l : Int)
    (key : FName) (v : Nat) (hk : ∀ n, key ≠ FName.tmpName n) (hv : st.files key = some v) :
    (toGif ext st f s l).1.files key = some v := by
  have h1 := toGifFfmpeg_files_mono ext st f s key v hk hv
  rcases toGif_spec ext st f s l with ⟨_, heq⟩ | ⟨sz, _, _, heq⟩ | ⟨_, _, _, hfi, _, _⟩ |
    ⟨c, _, hn, _, _, _, hfi⟩
  · rw [heq]; exact h1
  · rw [heq]; exact h1
  · rw [hfi]; exact h1
  · simp only [hfi]
    have hk1 : key ≠ FName.fullCache f s l := by
      intro hkey; rw [hkey] at h1; rw [h1] at hn; cases hn
    rw [if_neg hk1, if_neg (hk _)]
    exact h1

theorem toGif_ok_facts (ext : Nat → Option Nat) (st : OptState) (f : ℚ) (s l : Int)
    (nm : FName) (sz : Nat) (h : (toGif ext st f s l).2 = Except.ok (nm, sz)) :
    nm = FName.fullCache f s l ∧
    (toGif ext st f s l).1.files (FName.fullCache f s l) = some sz ∧
    ∃ w, (toGif ext st f s l).1.files (FName.gifCache f s) = some w := by
  have hgif : (toGifFfmpeg ext st f s).2 = Except.ok (FName.gifCache f s) →
      ∃ w, (toGifFfmpeg ext st f s).1.files (FName.gifCache f s) = some w := by
    intro hok
    rcases toGifFfmpeg_spec ext st f s with ⟨w, hw, heq⟩ | ⟨_, _, _, _, h2⟩ |
      ⟨c, _, _, _, _, hfi⟩
    · rw [heq]; exact ⟨w, hw⟩
    · rw [h2] at hok; cases hok
    · simp only [hfi]
      exact ⟨c, by simp⟩
  rcases toGif_spec ext st f s l with ⟨h2, heq⟩ | ⟨sz', hok, hfull, heq⟩ |
    ⟨_, _, _, _, _, h2⟩ | ⟨c, hok, hn, _, h2, _, hfi⟩
  · rw [heq] at h; cases h
  · rw [heq] at h
    simp at h
    obtain ⟨hnm, hsz⟩ := h
    subst hnm; subst hsz
    refine ⟨rfl, by rw [heq]; exact hfull, ?_⟩
    rw [heq]
    exact hgif hok
  · rw [h2] at h; cases h
  · rw [h2] at h
    simp at h
    obtain ⟨hnm, hsz⟩ := h
    subst hnm; subst hsz
    refine ⟨rfl, ?_, ?_⟩
    · simp [hfi]
    · obtain ⟨w, hw⟩ := hgif hok
      refine ⟨w, ?_⟩
      simp only [hfi]
      rw [if_neg (by simp), if_neg (by simp)]
      exact hw

theorem toGif_cache_hit (ext : Nat → Option Nat) (st : OptState) (f : ℚ) (s l : Int)
    (sz w : Nat) (hg : st.files (FName.gifCache f s) = some w)
    (hf : st.files (FName.fullCache f s l) = some sz) :
    toGif ext st f s l = (st, Except.ok (FName.fullCache f s l, sz)) := by
  have h1 : toGifFfmpeg ext st f s = (st, Except.ok (FName.gifCache f s)) := by
    simp [toGifFfmpeg, hg]
  simp [toGif, h1, hf]

theorem processTrials_files_mono (ext : Nat → Option Nat) (key : FName)
    (hk : ∀ n, key ≠ FName.tmpName n) :
    ∀ (trials : List Cand) (st : OptState) (v : Nat),
      st.files key = some v → (processTrials ext st trials).1.files key = some v := by
  intro trials
  induction trials with
  | nil => intro st v hv; exact hv
  | cons c cs ih =>
    intro st v hv
    have h1 := toGif_files_mono ext st c.fps c.size c.lossy key v hk hv
    rcases htg : toGif ext st c.fps c.size c.lossy with ⟨st1, r⟩
    rw [htg] at h1
    rcases r with e | val
    · cases e
      simp only [processTrials, htg]
      exact h1
    · rcases val with ⟨nm, sz⟩
      have h2 := ih st1 v h1
      rcases hpt : processTrials ext st1 cs with ⟨st2, r2⟩
      rw [hpt] at h2
      rcases r2 with e2 | acc <;> simp only [processTrials, htg, hpt] <;> exact h2

theorem count_append_one {α : Type} [DecidableEq α] (l : List α) (a b : α) :
    (l ++ [b]).count a = l.count a + (if b = a then 1 else 0) := by
  rw [List.count_append, List.count_singleton]
  congr 1
  by_cases h : b = a <;> simp [h]

theorem toGifFfmpeg_cacheInv (ext : Nat → Option Nat) (st : OptState) (f : ℚ) (s : Int)
    (hext : ∀ n, ext n ≠ none) (hinv : CacheInv st) :
    CacheInv (toGifFfmpeg ext st f s).1 := by
  rcases toGifFfmpeg_spec ext st f s with ⟨w, hw, heq⟩ | ⟨_, he, _, _, _⟩ |
    ⟨c, hn, _, _, hc, hfi⟩
  · rw [heq]; exact hinv
  · exact absurd he (hext _)
  · constructor
    · intro f' s'
      rw [hc, count_append_one]
      simp only [hfi]
      by_cases hfs : f' = f ∧ s' = s
      · obtain ⟨rfl, rfl⟩ := hfs
        have h0 : st.calls.count (ExtCall.ffmpegGif f' s') = 0 := by
          have h1 := hinv.1 f' s'
          rw [hn] at h1
          simpa using h1
        simp [h0]
      · have hne1 : ExtCall.ffmpegGif f s ≠ ExtCall.ffmpegGif f' s' := by
          intro hh; injection hh with a b; exact hfs ⟨a.symm, b.symm⟩
        have hne2 : FName.gifCache f' s' ≠ FName.gifCache f s := by
          intro hh; injection hh with a b; exact hfs ⟨a, b⟩
        rw [if_neg hne1, add_zero, if_neg hne2,
          if_neg (by simp : FName.gifCache f' s' ≠ FName.tmpName st.tmpCounter)]
        exact hinv.1 f' s'
    · intro f' s' l'
      rw [hc, count_append_one,
        if_neg (by simp : ExtCall.ffmpegGif f s ≠ ExtCall.gifsicle f' s' l'), add_zero]
      simp only [hfi]
      rw [if_neg (by simp : FName.fullCache f' s' l' ≠ FName.gifCache f s),
        if_neg (by simp : FName.fullCache f' s' l' ≠ FName.tmpName st.tmpCounter)]
      exact hinv.2 f' s' l'

theorem toGif_cacheInv (ext : Nat → Option Nat) (st : OptState) (f : ℚ) (s l : Int)
    (hext : ∀ n, ext n ≠ none) (hinv : CacheInv st) :
    CacheInv (toGif ext st f s l).1 := by
  have hinv1 := toGifFfmpeg_cacheInv ext st f s hext hinv
  rcases toGif_spec ext st f s l with ⟨_, heq⟩ | ⟨sz, _, _, heq⟩ | ⟨_, _, he, _, _, _⟩ |
    ⟨c, _, hn, _, _, hc, hfi⟩
  · rw [heq]; exact hinv1
  · rw [heq]; exact hinv1
  · exact absurd he (hext _)
  · constructor
    · intro f' s'
      rw [hc, count_append_one,
        if_neg (by simp : ExtCall.gifsicle f s l ≠ ExtCall.ffmpegGif f' s'), add_zero]
      simp only [hfi]
      rw [if_neg (by simp : FName.gifCache f' s' ≠ FName.fullCache f s l),
        if_neg (by simp :
          FName.gifCache f' s' ≠ FName.tmpName (toGifFfmpeg ext st f s).1.tmpCounter)]
      exact hinv1.1 f' s'
    · intro f' s' l'
      rw [hc, count_append_one]
      simp only [hfi]
      by_cases hfs : f' = f ∧ s' = s ∧ l' = l
      · obtain ⟨rfl, rfl, rfl⟩ := hfs
        have h0 : (toGifFfmpeg ext st f' s').1.calls.count (ExtCall.gifsicle f' s' l') = 0 := by
          have h1 := hinv1.2 f' s' l'
          rw [hn] at h1
          simpa using h1
        simp [h0]
      · have hne1 : ExtCall.gifsicle f s l ≠ ExtCall.gifsicle f' s' l' := by
          intro hh; injection hh with a b cc; exact hfs ⟨a.symm, b.symm, cc.symm⟩
        have hne2 : FName.fullCache f' s' l' ≠ FName.fullCache f s l := by
          intro hh; injection hh with a b cc; exact hfs ⟨a, b, cc⟩
        rw [if_neg hne1, add_zero, if_neg hne2,
          if_neg (by simp :
            FName.fullCache f' s' l' ≠ FName.tmpName (toGifFfmpeg ext st f s).1.tmpCounter)]
        exact hinv1.2 f' s' l'

theorem processTrials_cacheInv (ext : Nat → Option Nat) (hext : ∀ n, ext n ≠ none) :
    ∀ (trials : List Cand) (st : OptState), CacheInv st →
      CacheInv (processTrials ext st trials).1 := by
  intro trials
  induction trials with
  | nil => intro st hinv; exact hinv
  | cons c cs ih =>
    intro st hinv
    have h1 := toGif_cacheInv ext st c.fps c.size c.lossy hext hinv
    rcases htg : toGif ext st c.fps c.size c.lossy with ⟨st1, r⟩
    rw [htg] at h1
    rcases r with e | val
    · cases e
      simp only [processTrials, htg]
      exact h1
    · rcases val with ⟨nm, sz⟩
      have h2 := ih st1 h1
      rcases hpt : processTrials ext st1 cs with ⟨st2, r2⟩
      rw [hpt] at h2
      rcases r2 with e2 | acc <;> simp only [processTrials, htg, hpt] <;> exact h2

/-- Claim C3 (confirmed): within one Optimizer instance whose working
directory starts with no cached renders and whose external invocations all
succeed, any sequence of render requests triggers at most one ffmpeg
frame-render per distinct (fps, size) pair and at most one gifsicle
compression per distinct (fps, size, lossy) triple; and once a triple has
been rendered, repeating the request after any further requests returns the
same deterministic artifact name and the same byte size with the state
untouched — no external process is invoked on the repeat. -/
theorem render_cache_memoizes (ext : Nat → Option Nat) (st0 : OptState)
    (trials : List Cand)
    (hext : ∀ n, ext n ≠ none)
    (hg : ∀ (f : ℚ) (s : Int), st0.files (FName.gifCache f s) = none)
    (hfc : ∀ (f : ℚ) (s l : Int), st0.files (FName.fullCache f s l) = none)
    (hcg : ∀ (f : ℚ) (s : Int), ExtCall.ffmpegGif f s ∉ st0.calls)
    (hcc : ∀ (f : ℚ) (s l : Int), ExtCall.gifsicle f s l ∉ st0.calls) :
    (∀ (f : ℚ) (s : Int),
       (processTrials ext st0 trials).1.calls.count (ExtCall.ffmpegGif f s) ≤ 1) ∧
    (∀ (f : ℚ) (s l : Int),
       (processTrials ext st0 trials).1.calls.count (ExtCall.gifsicle f s l) ≤ 1) ∧
    (∀ (c : Cand) (nm : FName) (sz : Nat) (more : List Cand),
       (toGif ext st0 c.fps c.size c.lossy).2 = Except.ok (nm, sz) →
       toGif ext (processTrials ext (toGif ext st0 c.fps c.size c.lossy).1 more).1
           c.fps c.size c.lossy =
         ((processTrials ext (toGif ext st0 c.fps c.size c.lossy).1 more).1,
          Except.ok (nm, sz))) := by
  have hinv0 : CacheInv st0 := by
    constructor
    · intro f s
      rw [hg f s]
      simp [List.count_eq_zero.mpr (hcg f s)]
    · intro f s l
      rw [hfc f s l]
      simp [List.count_eq_zero.mpr (hcc f s l)]
  have hinvF := processTrials_cacheInv ext hext trials st0 hinv0
  refine ⟨fun f s => le_trans (hinvF.1 f s) (by split <;> omega),
    fun f s l => le_trans (hinvF.2 f s l) (by split <;> omega), ?_⟩
  intro c nm sz more h
  obtain ⟨hnm, hfull, w, hgif⟩ := toGif_ok_facts ext st0 c.fps c.size c.lossy nm sz h
  subst hnm
  have hfull2 := processTrials_files_mono ext
    (FName.fullCache c.fps c.size c.lossy) (fun n => by simp) more
    (toGif ext st0 c.fps c.size c.lossy).1 sz hfull
  have hgif2 := processTrials_files_mono ext
    (FName.gifCache c.fps c.size) (fun n => by simp) more
    (toGif ext st0 c.fps c.size c.lossy).1 w hgif
  exact toGif_cache_hit ext _ c.fps c.size c.lossy sz w hgif2 hfull2

theorem render_cache_memoizes_witness :
    ((processTrials (fun n => some (n + 1)) stEmpty [⟨1, 1, 0⟩, ⟨1, 1, 0⟩]).1.calls.count
       (ExtCall.ffmpegGif 1 1) ≤ 1) ∧
    ((processTrials (fun n => some (n + 1)) stEmpty [⟨1, 1, 0⟩, ⟨1, 1, 0⟩]).1.calls.count
       (ExtCall.gifsicle 1 1 0) ≤ 1) ∧
    toGif (fun n => some (n + 1))
        (processTrials (fun n => some (n + 1))
          (toGif (fun n => some (n + 1)) stEmpty 1 1 0).1 []).1 1 1 0 =
      ((processTrials (fun n => some (n + 1))
          (toGif (fun n => some (n + 1)) stEmpty 1 1 0).1 []).1,
       Except.ok (FName.fullCache 1 1 0, 2)) := by
  have h := render_cache_memoizes (fun n => some (n + 1)) stEmpty [⟨1, 1, 0⟩, ⟨1, 1, 0⟩]
    (fun n hn => Option.noConfusion hn)
    (fun f s => rfl) (fun f s l => rfl)
    (fun f s => List.not_mem_nil _) (fun f s l => List.not_mem_nil _)
  exact ⟨h.1 1 1, h.2.1 1 1 0, h.2.2 ⟨1, 1, 0⟩ (FName.fullCache 1 1 0) 2 [] rfl⟩

/-- Claim C8 (confirmed): a failed external invocation is fatal and leaves no
file at the deterministic cache path of the failed step: a failing ffmpeg
render leaves no file at the (fps, size) name, a failing compression step
leaves the (fps, size, lossy) entry exactly as it was before the call (the
output only ever reaches the cache name by being renamed from a random temp
name after the external command succeeded), and a failing render aborts the
trial loop with the error — the remaining trials are not attempted and
nothing is retried. -/
theorem render_failure_fatal (ext : Nat → Option Nat) (st : OptState) (f : ℚ)
    (s l : Int) (rest : List Cand) :
    ((toGifFfmpeg ext st f s).2 = Except.error () →
       (toGifFfmpeg ext st f s).1.files (FName.gifCache f s) = none) ∧
    ((toGif ext st f s l).2 = Except.error () →
       (toGif ext st f s l).1.files (FName.fullCache f s l) =
         st.files (FName.fullCache f s l)) ∧
    ((toGif ext st f s l).2 = Except.error () →
       processTrials ext st (⟨f, s, l⟩ :: rest) =
         ((toGif ext st f s l).1, Except.error ())) := by
  refine ⟨?_, ?_, ?_⟩
  · intro h
    rcases toGifFfmpeg_spec ext st f s with ⟨w, hw, heq⟩ | ⟨hn, _, hfi, _, _⟩ |
      ⟨c, _, _, h2, _, _⟩
    · rw [heq] at h; cases h
    · rw [hfi]; exact hn
    · rw [h2] at h; cases h
  · intro h
    have hother := toGifFfmpeg_files_other ext st f s (FName.fullCache f s l)
      (fun f' s' => by simp) (fun n => by simp)
    rcases toGif_spec ext st f s l with ⟨_, heq⟩ | ⟨sz, _, _, heq⟩ |
      ⟨_, _, _, hfi, _, _⟩ | ⟨c, _, _, _, h2, _, _⟩
    · rw [heq]; exact hother
    · rw [heq] at h; cases h
    · rw [hfi]; exact hother
    · rw [h2] at h; cases h
  · intro h
    rcases htg : toGif ext st f s l with ⟨st1, r⟩
    rw [htg] at h
    rcases r with e | val
    · cases e
      simp only [processTrials, htg]
    · exact absurd h (by simp)

theorem render_failure_fatal_witness :
    (toGifFfmpeg (fun _ => none) stEmpty 1 1).1.files (FName.gifCache 1 1) = none ∧
    processTrials (fun _ => none) stEmpty [⟨1, 1, 0⟩] =
      ((toGif (fun _ => none) stEmpty 1 1 0).1, Except.error ()) := by
  exact ⟨(render_failure_fatal (fun _ => none) stEmpty 1 1 0 []).1 rfl,
    (render_failure_fatal (fun _ => none) stEmpty 1 1 0 []).2.2 rfl⟩

theorem exitCleanup_outputFile (st : OptState) :
    (exitCleanup st).files FName.outputFile = st.files FName.outputFile := by
  simp [exitCleanup, isTmpGif]

theorem exitCleanup_tmpGif (st : OptState) (k : FName) (hk : isTmpGif k = true) :
    (exitCleanup st).files k = none := by
  simp [exitCleanup, hk]

/-- Claim C9 (confirmed): promotion moves the winning candidate's cached
artifact to the output path (same content, and the cache entry is gone
afterwards — a rename, not a copy); when the Optimizer's scope ends the
`__exit__` cleanup deletes every generated `.gif` render in the working
directory while the output path's file — which is not in the working
directory — persists, whatever the state was (success, failure, or
interruption); and every successful `optimize` run ends with exactly such a
promotion, so after it the output file holds the winner's cached bytes and
survives the cleanup. -/
theorem optimize_promote_and_cleanup :
    (∀ (st : OptState) (best : Cand) (sz : Nat),
       st.files (FName.fullCache best.fps best.size best.lossy) = some sz →
       (promote st best).2 = Except.ok () ∧
       (promote st best).1.files FName.outputFile = some sz ∧
       (promote st best).1.files (FName.fullCache best.fps best.size best.lossy) = none) ∧
    (∀ st : OptState,
       (exitCleanup st).files FName.outputFile = st.files FName.outputFile ∧
       ∀ k, isTmpGif k = true → (exitCleanup st).files k = none) ∧
    (∀ (ext : Nat → Option Nat) (bestPick : List (Cand × Nat) → Cand) (nativeFps : ℚ)
       (width : Int) (p : OptimizeParams) (trials : List Cand) (st0 stF : OptState),
       optimizeRun ext bestPick nativeFps width p trials st0 = (stF, Except.ok ()) →
       ∃ stPre b sz,
         promote stPre b = (stF, Except.ok ()) ∧
         stPre.files (FName.fullCache b.fps b.size b.lossy) = some sz ∧
         stF.files FName.outputFile = some sz ∧
         (exitCleanup stF).files FName.outputFile = some sz ∧
         ∀ k, isTmpGif k = true → (exitCleanup stF).files k = none) := by
  have hprom : ∀ (st : OptState) (best : Cand) (sz : Nat),
      st.files (FName.fullCache best.fps best.size best.lossy) = some sz →
      (promote st best).2 = Except.ok () ∧
      (promote st best).1.files FName.outputFile = some sz ∧
      (promote st best).1.files (FName.fullCache best.fps best.size best.lossy) = none := by
    intro st best sz h
    refine ⟨by simp [promote, h], by simp [promote, h], ?_⟩
    simp [promote, h]
  refine ⟨hprom, fun st => ⟨exitCleanup_outputFile st, fun k hk => exitCleanup_tmpGif st k hk⟩, ?_⟩
  intro ext bestPick nativeFps width p trials st0 stF h
  rw [optimizeRun] at h
  rcases hv : validate nativeFps width p with _ | msg
  · rw [hv] at h
    simp only [] at h
    rcases hs1 : (if p.fpsMax < nativeFps ∨ p.sizeMax < width
        then createIntermediate ext st0 p.fpsMax p.sizeMax
        else (st0, Except.ok ())) with ⟨st1, r1⟩
    rw [hs1] at h
    rcases r1 with e1 | u1
    · simp only [] at h
      exact absurd h (by simp)
    · cases u1
      simp only [] at h
      rcases hs2 : createPalette ext st1 with ⟨st2, r2⟩
      rw [hs2] at h
      rcases r2 with e2 | u2
      · simp only [] at h
        exact absurd h (by simp)
      · cases u2
        simp only [] at h
        rcases hs3 : processTrials ext st2 trials with ⟨st3, r3⟩
        rw [hs3] at h
        rcases r3 with e3 | results
        · simp only [] at h
          exact absurd h (by simp)
        · simp only [] at h
          rcases hp : promote st3 (bestPick results) with ⟨st4, r4⟩
          rw [hp] at h
          rcases r4 with e4 | u4
          · simp only [] at h
            exact absurd h (by simp)
          · cases u4
            simp only [] at h
            have hstF : st4 = stF := by
              have := congrArg Prod.fst h
              simpa using this
            subst hstF
            rcases hf3 : st3.files (FName.fullCache (bestPick results).fps
                (bestPick results).size (bestPick results).lossy) with _ | sz
            · rw [promote] at hp
              rw [hf3] at hp
              exact absurd (congrArg Prod.snd hp) (by simp)
            · have hfacts := hprom st3 (bestPick results) sz hf3
              rw [hp] at hfacts
              refine ⟨st3, bestPick results, sz, hp, hf3, hfacts.2.1, ?_, ?_⟩
              · rw [exitCleanup_outputFile]
                exact hfacts.2.1
              · intro k hk
                exact exitCleanup_tmpGif st4 k hk
  · rw [hv] at h
    simp only [] at h
    exact absurd h (by simp)

theorem optimize_promote_and_cleanup_witness :
    (promote ⟨fun k => if k = FName.fullCache 1 1 0 then some 7 else none, 0, []⟩
        ⟨1, 1, 0⟩).1.files FName.outputFile = some 7 ∧
    (exitCleanup stEmpty).files FName.outputFile = stEmpty.files FName.outputFile ∧
    ∃ stPre b sz,
      promote stPre b =
        ((optimizeRun (fun n => some (n + 1)) (fun _ => ⟨15, 100, 30⟩) 30 640
            ⟨1000, 1, 30, 1, 640, 0, 200⟩ [⟨15, 100, 30⟩] stEmpty).1, Except.ok ()) ∧
      stPre.files (FName.fullCache b.fps b.size b.lossy) = some sz ∧
      (optimizeRun (fun n => some (n + 1)) (fun _ => ⟨15, 100, 30⟩) 30 640
          ⟨1000, 1, 30, 1, 640, 0, 200⟩ [⟨15, 100, 30⟩] stEmpty).1.files
        FName.outputFile = some sz ∧
      (exitCleanup (optimizeRun (fun n => some (n + 1)) (fun _ => ⟨15, 100, 30⟩) 30 640
          ⟨1000, 1, 30, 1, 640, 0, 200⟩ [⟨15, 100, 30⟩] stEmpty).1).files
        FName.outputFile = some sz ∧
      ∀ k, isTmpGif k = true →
        (exitCleanup (optimizeRun (fun n => some (n + 1)) (fun _ => ⟨15, 100, 30⟩) 30 640
            ⟨1000, 1, 30, 1, 640, 0, 200⟩ [⟨15, 100, 30⟩] stEmpty).1).files k = none := by
  refine ⟨(optimize_promote_and_cleanup.1
      ⟨fun k => if k = FName.fullCache 1 1 0 then some 7 else none, 0, []⟩
      ⟨1, 1, 0⟩ 7 (by simp)).2.1,
    (optimize_promote_and_cleanup.2.1 stEmpty).1,
    optimize_promote_and_cleanup.2.2 (fun n => some (n + 1)) (fun _ => ⟨15, 100, 30⟩)
      30 640 ⟨1000, 1, 30, 1, 640, 0, 200⟩ [⟨15, 100, 30⟩] stEmpty _ (by rfl)⟩
